import Mathlib

/-!
Verification of the SafeC compile-time safety analyzer.

The repository documents (but does not include the implementation of) a
multi-pass memory- and aliasing-safety analyzer for the SafeC language.
The definitions below are shallow embeddings of the analyzer's passes,
modelled from the specification and the reference documentation
(`src/reference/safety.md`, `src/reference/memory.md`, the formal safety
model, and the FFI chapter), since the analyzer's own source code is not
part of this repository.
-/

namespace SafeC

/-- Modelled from the spec: the analyzer's error taxonomy (§7).  The
implementation is not in this repository; the constructors are the nine
diagnostic rules listed by the spec.  `UseOfUninit` stands for the
spec's `UseOfUninitialized` rule. -/
inductive Diag where
  | UseOfUninit
  | RegionEscape
  | StackEscape
  | AliasConflict
  | StaleArenaReference
  | NullDerefRisk
  | OutOfBounds
  | DuplicateRegion
  | ConstEvalBudgetExceeded
deriving DecidableEq

/-- Modelled from the spec: the four built-in region kinds (§3), a closed
tagged union `Stack | Static | Heap | Arena(name)`. -/
inductive Region where
  | Stack
  | Static
  | Heap
  | Arena (name : Nat)
deriving DecidableEq

/-! ## Alias/Borrow Checker (spec §4.4, safety.md "Aliasing Rules") -/

/-- Borrow kinds: a `Mutable` record excludes all others for its place;
multiple `Immutable` records may coexist. -/
inductive BKind where
  | Mutable
  | Immutable
deriving DecidableEq

/-- Modelled from the spec: the statements relevant to the borrow pass.
`borrow r p k` takes reference `r` to place `p` with kind `k`; `use r`
is a subsequent use of reference `r`; `other` is any unrelated statement.
Program points are list indices. -/
inductive BStmt where
  | borrow (r p : Nat) (k : BKind)
  | use (r : Nat)
  | other
deriving DecidableEq

/-- Whether a statement is a use of reference `r`. -/
def isUseOf (s : BStmt) (r : Nat) : Bool :=
  match s with
  | .use r2 => r2 == r
  | _ => false

/-- Modelled from the spec: a borrow record (§3), an entry in the
per-place table `{holder, kind, live_from, live_to}`. -/
structure BorrowRec where
  holder : Nat
  place : Nat
  kind : BKind
  live_from : Nat
  live_to : Nat
deriving DecidableEq

/-- Modelled from the spec: the non-lexical `live_to` of a borrow — the
last program point at or after the creation point `c` where reference
`r` is actually used (the creation point itself when `r` is never used). -/
def lastUse (prog : List BStmt) (r c : Nat) : Nat :=
  ((List.range prog.length).filter
    (fun j => c ≤ j && isUseOf (prog.getD j .other) r)).foldr max c

/-- Modelled from the spec: the borrow records created by walking the
statements in order: one record per `borrow` statement, with
`live_from` its program point and `live_to` its last use (§4.4). -/
def borrowRecords (prog : List BStmt) : List BorrowRec :=
  (List.range prog.length).filterMap (fun i =>
    match prog.getD i .other with
    | .borrow r p k => some ⟨r, p, k, i, lastUse prog r i⟩
    | _ => none)

/-- Two borrow records conflict when they are for the same place, their
live ranges overlap, and at least one of them is `Mutable` (§4.4's
exclusivity rule). -/
def Conflict (a b : BorrowRec) : Prop :=
  a.place = b.place ∧ a.live_from ≤ b.live_to ∧ b.live_from ≤ a.live_to ∧
    (a.kind = BKind.Mutable ∨ b.kind = BKind.Mutable)

instance (a b : BorrowRec) : Decidable (Conflict a b) := by
  unfold Conflict; infer_instance

/-- Modelled from the spec: the scan performed before inserting each
record — every existing live record for the same place is checked for a
kind-rule overlap (§4.4). -/
def noConflicts : List BorrowRec → Bool
  | [] => true
  | r :: rs => (rs.all fun s => !(decide (Conflict r s))) && noConflicts rs

/-- Modelled from the spec: the borrow pass verdict.  An `AliasConflict`
diagnostic is reported when any two records for one place have
overlapping live ranges and one of them is mutable. -/
def borrowCheck (prog : List BStmt) : List Diag :=
  if noConflicts (borrowRecords prog) then [] else [Diag.AliasConflict]

/-- The borrow records for place `p` that are live at program point `t`
(their live range contains `t`). -/
def liveAt (prog : List BStmt) (p t : Nat) : List BorrowRec :=
  (borrowRecords prog).filter
    (fun r => r.place == p && decide (r.live_from ≤ t) && decide (t ≤ r.live_to))

theorem conflict_symm {a b : BorrowRec} (h : Conflict a b) : Conflict b a := by
  obtain ⟨h1, h2, h3, h4⟩ := h
  exact ⟨h1.symm, h3, h2, h4.symm⟩

theorem noConflicts_iff (rs : List BorrowRec) :
    noConflicts rs = true ↔ rs.Pairwise (fun a b => ¬ Conflict a b) := by
  induction rs with
  | nil => simp [noConflicts]
  | cons r rs ih =>
    simp [noConflicts, List.all_eq_true, ih, List.pairwise_cons]

theorem noConflicts_forall {rs : List BorrowRec} (h : noConflicts rs = true)
    {a b : BorrowRec} (ha : a ∈ rs) (hb : b ∈ rs) (hne : a ≠ b) :
    ¬ Conflict a b := by
  have hp := (noConflicts_iff rs).mp h
  have hsym : Symmetric (fun a b : BorrowRec => ¬ Conflict a b) := by
    intro x y hxy hc
    exact hxy (conflict_symm hc)
  exact hp.forall hsym ha hb hne

theorem le_foldr_max {l : List Nat} {a : Nat} (h : a ∈ l) (c : Nat) :
    a ≤ l.foldr max c := by
  induction l with
  | nil => cases h
  | cons x xs ih =>
    rcases List.mem_cons.mp h with rfl | h2
    · exact le_max_left _ _
    · exact le_trans (ih h2) (le_max_right _ _)

theorem lastUse_ge {prog : List BStmt} {r c j : Nat} (hc : c ≤ j)
    (hu : isUseOf (prog.getD j BStmt.other) r = true) : j ≤ lastUse prog r c := by
  have hj : j < prog.length := by
    by_contra hge
    rw [List.getD_eq_default _ _ (le_of_not_lt hge)] at hu
    simp [isUseOf] at hu
  apply le_foldr_max
  simp only [List.mem_filter, List.mem_range, Bool.and_eq_true, decide_eq_true_eq]
  exact ⟨hj, hc, hu⟩

/-- C1: Mutable exclusivity invariant: for every place `p` and program
point `t` of an accepted program, the live borrow records for `p` never
contain a `Mutable` record concurrently with any other record; and any
two distinct records for one place with overlapping live ranges, one of
them `Mutable` (a second mutable, a mutable against an immutable, or an
immutable against a mutable), make the pass fail with `AliasConflict`. -/
theorem C1_mutable_exclusivity (prog : List BStmt) :
    (borrowCheck prog = [] →
      ∀ p t r1 r2, r1 ∈ liveAt prog p t → r2 ∈ liveAt prog p t → r1 ≠ r2 →
        r1.kind ≠ BKind.Mutable)
    ∧ (∀ r1 r2, r1 ∈ borrowRecords prog → r2 ∈ borrowRecords prog → r1 ≠ r2 →
        r1.place = r2.place → r1.live_from ≤ r2.live_to → r2.live_from ≤ r1.live_to →
        (r1.kind = BKind.Mutable ∨ r2.kind = BKind.Mutable) →
        Diag.AliasConflict ∈ borrowCheck prog) := by
  constructor
  · intro hok p t r1 r2 h1 h2 hne
    have hnc : noConflicts (borrowRecords prog) = true := by
      cases h : noConflicts (borrowRecords prog) with
      | false => rw [borrowCheck, h] at hok; simp at hok
      | true => rfl
    simp only [liveAt, List.mem_filter, Bool.and_eq_true, beq_iff_eq,
      decide_eq_true_eq] at h1 h2
    obtain ⟨hm1, ⟨hp1, hf1⟩, ht1⟩ := h1
    obtain ⟨hm2, ⟨hp2, hf2⟩, ht2⟩ := h2
    intro hkind
    exact noConflicts_forall hnc hm1 hm2 hne
      ⟨hp1.trans hp2.symm, hf1.trans ht2, hf2.trans ht1, Or.inl hkind⟩
  · intro r1 r2 hm1 hm2 hne hpl ho1 ho2 hk
    cases h : noConflicts (borrowRecords prog) with
    | false => simp [borrowCheck, h]
    | true => exact absurd ⟨hpl, ho1, ho2, hk⟩ (noConflicts_forall h hm1 hm2 hne)

/-- A concrete block with two sequential, non-overlapping mutable
borrows of place `0` and no intervening scope: the first borrow's last
use (point 1) precedes the second borrow (point 2), and the block
continues past both (point 4). -/
def c4prog : List BStmt :=
  [BStmt.borrow 0 0 BKind.Mutable, BStmt.use 0,
   BStmt.borrow 1 0 BKind.Mutable, BStmt.use 1, BStmt.other]

/-- C4: Non-lexical borrow liveness: every borrow record's `live_to`
bounds every actual use of its holder (it is the last use point, not
the end of the enclosing scope), and on the concrete block `c4prog`
two sequential non-overlapping mutable borrows of the same place are
both accepted, with live ranges `[0,1]` and `[2,3]` ending strictly
before the block's final point `4`. -/
theorem C4_non_lexical_liveness :
    (∀ (prog : List BStmt) (b : BorrowRec), b ∈ borrowRecords prog →
       ∀ j, b.live_from ≤ j → isUseOf (prog.getD j BStmt.other) b.holder = true →
         j ≤ b.live_to)
    ∧ borrowCheck c4prog = []
    ∧ borrowRecords c4prog =
        [⟨0, 0, BKind.Mutable, 0, 1⟩, ⟨1, 0, BKind.Mutable, 2, 3⟩] := by
  refine ⟨?_, by decide, by decide⟩
  intro prog b hb j hj hu
  rw [borrowRecords, List.mem_filterMap] at hb
  obtain ⟨i, _, hmk⟩ := hb
  cases hg : prog.getD i BStmt.other with
  | borrow r p k =>
    rw [hg] at hmk
    simp only [Option.some_inj] at hmk
    subst hmk
    exact lastUse_ge hj hu
  | use r => rw [hg] at hmk; simp at hmk
  | other => rw [hg] at hmk; simp at hmk

/-- Witness for C1 at concrete programs: a program with two overlapping
immutable borrows is accepted and exclusivity holds for its two live
records at point 1; a program with two overlapping mutable borrows of
one place is rejected with `AliasConflict`. -/
theorem C1_mutable_exclusivity_witness :
    (⟨0, 0, BKind.Immutable, 0, 2⟩ : BorrowRec).kind ≠ BKind.Mutable
    ∧ Diag.AliasConflict ∈ borrowCheck
        [BStmt.borrow 0 0 BKind.Mutable, BStmt.borrow 1 0 BKind.Mutable,
         BStmt.use 0, BStmt.use 1] := by
  constructor
  · exact (C1_mutable_exclusivity
      [BStmt.borrow 0 0 BKind.Immutable, BStmt.borrow 1 0 BKind.Immutable,
       BStmt.use 0, BStmt.use 1]).1 (by decide) 0 1
      ⟨0, 0, BKind.Immutable, 0, 2⟩ ⟨1, 0, BKind.Immutable, 1, 3⟩
      (by decide) (by decide) (by decide)
  · exact (C1_mutable_exclusivity
      [BStmt.borrow 0 0 BKind.Mutable, BStmt.borrow 1 0 BKind.Mutable,
       BStmt.use 0, BStmt.use 1]).2
      ⟨0, 0, BKind.Mutable, 0, 2⟩ ⟨1, 0, BKind.Mutable, 1, 3⟩
      (by decide) (by decide) (by decide) (by decide) (by decide) (by decide)
      (Or.inl rfl)

/-! ## Escape Analyzer (spec §4.3, safety.md "Region Escape Analysis") -/

/-- Modelled from the spec: the statements relevant to the escape pass.
`enter`/`exitS` open and close a lexical block, `declPlace` declares a
place with its region at the current scope depth, `newRef` is a
reference-producing expression bound to reference id `r`, `assign`
stores reference `src` into place `dst`, and `ret` returns reference
`src` from the function. -/
inductive EStmt where
  | enter
  | exitS
  | declPlace (p : Nat) (reg : Region)
  | newRef (r : Nat) (reg : Region)
  | assign (dst src : Nat)
  | ret (src : Nat)
deriving DecidableEq

/-- Modelled from the spec: the scope/region table threaded through the
escape walk — the current scope depth (the function body is depth 1),
and per-place and per-reference (region, declaring/creation depth)
entries. -/
structure EState where
  depth : Nat
  places : List (Nat × Region × Nat)
  refs : List (Nat × Region × Nat)

/-- A reference-consuming event observed during the walk: storing a
source reference into a place, or returning it to the caller. -/
inductive EEvent where
  | store (srcReg : Region) (srcDepth : Nat) (dstReg : Region) (dstDepth : Nat)
  | retE (srcReg : Region) (srcDepth : Nat)
deriving DecidableEq

/-- Modelled from the spec: the region partial order check for a store
(§3, §4.3): `Static` and `Heap` sources outlive every target; a `Stack`
or `Arena` source must not reach a shallower scope nor `Static`
storage. -/
def outlives (srcReg : Region) (srcDepth : Nat) (dstReg : Region) (dstDepth : Nat) : Bool :=
  match srcReg with
  | .Static => true
  | .Heap => true
  | .Stack => decide (srcDepth ≤ dstDepth) && !(dstReg == Region.Static)
  | .Arena _ => decide (srcDepth ≤ dstDepth) && !(dstReg == Region.Static)

/-- Modelled from the spec: the diagnostic for one consuming event — a
failed store is `RegionEscape`; a return of a `Stack` reference created
in the function body (depth 1) or deeper is `StackEscape` (§4.3). -/
def eventDiag : EEvent → List Diag
  | .store sReg sD dReg dD =>
    if outlives sReg sD dReg dD then [] else [Diag.RegionEscape]
  | .retE sReg sD =>
    match sReg with
    | .Stack => if 1 ≤ sD then [Diag.StackEscape] else []
    | _ => []

/-- Modelled from the spec: one step of the escape walk, updating the
scope depth and the place/reference tables and emitting the consuming
events of the statement. -/
def estep (s : EState) (st : EStmt) : EState × List EEvent :=
  match st with
  | .enter => (⟨s.depth + 1, s.places, s.refs⟩, [])
  | .exitS => (⟨s.depth - 1, s.places, s.refs⟩, [])
  | .declPlace p reg => (⟨s.depth, (p, reg, s.depth) :: s.places, s.refs⟩, [])
  | .newRef r reg => (⟨s.depth, s.places, (r, reg, s.depth) :: s.refs⟩, [])
  | .assign dst src =>
    match s.places.lookup dst, s.refs.lookup src with
    | some (dReg, dD), some (sReg, sD) => (s, [.store sReg sD dReg dD])
    | _, _ => (s, [])
  | .ret src =>
    match s.refs.lookup src with
    | some (sReg, sD) => (s, [.retE sReg sD])
    | none => (s, [])

/-- The event trace of a statement list from a given state. -/
def etrace : EState → List EStmt → List EEvent
  | _, [] => []
  | s, st :: rest =>
    let p := estep s st
    p.2 ++ etrace p.1 rest

/-- The event trace of a function body, started at body depth 1. -/
def escTrace (prog : List EStmt) : List EEvent :=
  etrace ⟨1, [], []⟩ prog

/-- Modelled from the spec: the escape pass verdict — the accumulated
diagnostics of every consuming event of the walk. -/
def escCheck (prog : List EStmt) : List Diag :=
  (escTrace prog).flatMap eventDiag

/-- C3: Stack-escape soundness: if the escape pass accepts a program,
then every store of a `Stack`-region reference targets a place whose
scope is at least as deep as the reference's creation scope and is not
`Static` storage (no observing scope is shallower than the creation
scope); and a return of a `Stack`-region reference created in the
function body (depth 1) or deeper always yields `StackEscape`. -/
theorem C3_stack_escape_soundness :
    (∀ prog, escCheck prog = [] →
      ∀ sD dReg dD, EEvent.store Region.Stack sD dReg dD ∈ escTrace prog →
        sD ≤ dD ∧ dReg ≠ Region.Static)
    ∧ (∀ prog sD, EEvent.retE Region.Stack sD ∈ escTrace prog → 1 ≤ sD →
        Diag.StackEscape ∈ escCheck prog) := by
  constructor
  · intro prog hok sD dReg dD hmem
    have h := List.flatMap_eq_nil_iff.mp hok _ hmem
    by_cases ho : outlives Region.Stack sD dReg dD = true
    · simpa only [outlives, Bool.and_eq_true, decide_eq_true_eq,
        Bool.not_eq_true', beq_eq_false_iff_ne] using ho
    · rw [eventDiag, if_neg ho] at h
      simp at h
  · intro prog sD hmem hd
    apply List.mem_flatMap.mpr
    refine ⟨_, hmem, ?_⟩
    simp [eventDiag, hd]

/-- Witness for C3: the accepting program stores a stack reference into
a same-depth place, and its store event satisfies the soundness bound;
the rejecting program returns a stack reference created in the function
body and gets `StackEscape`. -/
theorem C3_stack_escape_soundness_witness :
    ((1 : Nat) ≤ 1 ∧ Region.Stack ≠ Region.Static)
    ∧ Diag.StackEscape ∈ escCheck [EStmt.newRef 0 Region.Stack, EStmt.ret 0] :=
  ⟨C3_stack_escape_soundness.1
      [EStmt.declPlace 0 Region.Stack, EStmt.newRef 1 Region.Stack, EStmt.assign 0 1]
      (by decide) 1 Region.Stack 1 (by decide),
   C3_stack_escape_soundness.2 [EStmt.newRef 0 Region.Stack, EStmt.ret 0] 1
      (by decide) (by decide)⟩

/-! ## Definite-Initialization Checker (spec §4.2, safety.md "Definite
Initialization") -/

/-- Modelled from the spec: the statements relevant to the
definite-initialization pass: scalar and struct declarations (a struct
with `n` fields), whole-place and per-field assignment, and whole-place
and per-field reads. -/
inductive IStmt where
  | declScalar (p : Nat)
  | declStruct (p n : Nat)
  | assignW (p : Nat)
  | assignField (p i : Nat)
  | readW (p : Nat)
  | readField (p i : Nat)
deriving DecidableEq

/-- Mark place `p` initialized in the per-place table. -/
def setInit (s : List (Nat × Bool)) (p : Nat) : List (Nat × Bool) :=
  s.map (fun q => if q.1 = p then (q.1, true) else q)

/-- Modelled from the spec: one step of the documented
definite-initialization pass (safety.md "Definite Initialization"):
scalar variables start uninitialized and become initialized on
assignment; struct variables are considered initialized at declaration
(fields are assigned individually); reading an uninitialized place
reports `UseOfUninitialized` for that place. -/
def initStepDoc (s : List (Nat × Bool)) (st : IStmt) :
    List (Nat × Bool) × List (Diag × Nat) :=
  match st with
  | .declScalar p => ((p, false) :: s, [])
  | .declStruct p _ => ((p, true) :: s, [])
  | .assignW p => (setInit s p, [])
  | .assignField p _ => (setInit s p, [])
  | .readW p => (s, if s.lookup p = some false then [(Diag.UseOfUninit, p)] else [])
  | .readField p _ => (s, if s.lookup p = some false then [(Diag.UseOfUninit, p)] else [])

/-- The documented pass over a statement list. -/
def initRunDoc : List (Nat × Bool) → List IStmt → List (Diag × Nat)
  | _, [] => []
  | s, st :: rest =>
    let q := initStepDoc s st
    q.2 ++ initRunDoc q.1 rest

/-- The documented definite-initialization verdict, as (diagnostic,
place) pairs. -/
def initCheckDoc (prog : List IStmt) : List (Diag × Nat) :=
  initRunDoc [] prog

/-- Per-place initialization state following the claim's words: a
scalar flag, or a per-field flag vector for a struct. -/
inductive ISt where
  | scalar (b : Bool)
  | strukt (fields : List Bool)
deriving DecidableEq

/-- The claim's three-state classification of a place. -/
inductive InitState where
  | Uninit
  | PartInit
  | Init
deriving DecidableEq

/-- The claim's state of a place: a struct is `Init` when all fields
are written, `PartInit` when some but not all are, `Uninit` otherwise. -/
def placeState : ISt → InitState
  | .scalar false => .Uninit
  | .scalar true => .Init
  | .strukt fs =>
    if fs.all (fun b => b) then .Init
    else if fs.any (fun b => b) then .PartInit else .Uninit

/-- Mark a whole place fully initialized. -/
def fullInit : ISt → ISt
  | .scalar _ => .scalar true
  | .strukt fs => .strukt (fs.map (fun _ => true))

/-- Mark field `i` of a place initialized. -/
def setField : ISt → Nat → ISt
  | .scalar b, _ => .scalar b
  | .strukt fs, i => .strukt (fs.set i true)

/-- Whether a place is fully initialized. -/
def isFully : ISt → Bool
  | .scalar b => b
  | .strukt fs => fs.all (fun b => b)

/-- The claim's per-field definite-initialization state machine, taken
from the claim's and the spec's words (spec §4.2) for comparison with
the documented pass: a struct starts with all fields `Uninit`, a field
assignment initializes that field only, and reading a field whose
component is still uninitialized reports `UseOfUninitialized`. -/
def initStepSpec (s : List (Nat × ISt)) (st : IStmt) :
    List (Nat × ISt) × List (Diag × Nat) :=
  match st with
  | .declScalar p => ((p, .scalar false) :: s, [])
  | .declStruct p n => ((p, .strukt (List.replicate n false)) :: s, [])
  | .assignW p => (s.map (fun q => if q.1 = p then (q.1, fullInit q.2) else q), [])
  | .assignField p i => (s.map (fun q => if q.1 = p then (q.1, setField q.2 i) else q), [])
  | .readW p =>
    (s, match s.lookup p with
        | some v => if isFully v then [] else [(Diag.UseOfUninit, p)]
        | none => [])
  | .readField p i =>
    (s, match s.lookup p with
        | some (.strukt fs) => if fs.getD i true then [] else [(Diag.UseOfUninit, p)]
        | some (.scalar b) => if b then [] else [(Diag.UseOfUninit, p)]
        | none => [])

/-- The claim's state machine run over a statement list. -/
def initRunSpec : List (Nat × ISt) → List IStmt → List (Diag × Nat)
  | _, [] => []
  | s, st :: rest =>
    let q := initStepSpec s st
    q.2 ++ initRunSpec q.1 rest

/-- The claim's definite-initialization verdict. -/
def initCheckSpec (prog : List IStmt) : List (Diag × Nat) :=
  initRunSpec [] prog

/-- C5 counterexample: the claim's per-field machine reports
`UseOfUninitialized` for reading field 1 of a struct whose field 0
alone was assigned (the place being `PartiallyInit`), but the
documented pass considers struct variables initialized at declaration
and accepts the same program with no diagnostic. -/
theorem C5_counterexample :
    initCheckDoc [IStmt.declStruct 0 2, IStmt.assignField 0 0, IStmt.readField 0 1] = []
    ∧ initCheckSpec [IStmt.declStruct 0 2, IStmt.assignField 0 0, IStmt.readField 0 1]
        = [(Diag.UseOfUninit, 0)]
    ∧ placeState (ISt.strukt [true, false]) = InitState.PartInit := by decide

/-- C5 (amended): scalar definite initialization: reading a scalar
place before any assignment fails with `UseOfUninitialized` and after
assignment it does not; struct places are considered initialized at
declaration, so field reads of a declared struct never produce
`UseOfUninitialized`, whether or not any field has been assigned. -/
theorem C5_struct_initialization (p n i j : Nat) :
    initCheckDoc [IStmt.declScalar p, IStmt.readW p] = [(Diag.UseOfUninit, p)]
    ∧ initCheckDoc [IStmt.declScalar p, IStmt.assignW p, IStmt.readW p] = []
    ∧ initCheckDoc [IStmt.declStruct p n, IStmt.readField p i] = []
    ∧ initCheckDoc [IStmt.declStruct p n, IStmt.assignField p i, IStmt.readField p j]
        = [] := by
  have hset : ∀ b : Bool, setInit [(p, b)] p = [(p, true)] := by
    intro b; simp [setInit]
  refine ⟨?_, ?_, ?_, ?_⟩
  · simp [initCheckDoc, initRunDoc, initStepDoc, List.lookup]
  · simp only [initCheckDoc, initRunDoc, initStepDoc]
    simp only [hset]
    simp [List.lookup]
  · simp [initCheckDoc, initRunDoc, initStepDoc, List.lookup]
  · simp only [initCheckDoc, initRunDoc, initStepDoc]
    simp only [hset]
    simp [List.lookup]

/-! ## Bounds-Check Policy Selector (spec §4.7, safety.md "Bounds
Safety") -/

/-- Modelled from the spec: index expressions as seen by the selector;
`fold_constant` below is the constant-evaluation interface of §6.
`dyn` is any runtime-computed index. -/
inductive IExpr where
  | lit (n : Int)
  | add (a b : IExpr)
  | dyn
deriving DecidableEq

/-- Modelled from the spec: the constant-evaluation engine's
`fold_constant(expr) -> Option<IntegerValue>` used by the selector
(§6); literals and sums of constants fold, dynamic indices do not. -/
def fold_constant : IExpr → Option Int
  | .lit n => some n
  | .add a b =>
    match fold_constant a, fold_constant b with
    | some x, some y => some (x + y)
    | _, _ => none
  | .dyn => none

/-- An indexed access target: a stack array with statically known
length, or a slice (whose length is runtime data). -/
inductive Target where
  | array (len : Nat)
  | slice
deriving DecidableEq

/-- Modelled from the spec: the per-access bounds-check policy
`ProvenSafe | RuntimeGuard | CompileError` (§6). -/
inductive Policy where
  | ProvenSafe
  | RuntimeGuard
  | CompileError
deriving DecidableEq

/-- Modelled from the spec: the bounds-check policy selector (§4.7):
slices always get the dynamic policy; for a static-length array a
constant-foldable index outside `[0, len)` is a compile error, a
constant in range is proven safe, and a non-constant index needs a
runtime guard. -/
def boundsPolicy (t : Target) (e : IExpr) : Policy :=
  match t with
  | .slice => .RuntimeGuard
  | .array len =>
    match fold_constant e with
    | none => .RuntimeGuard
    | some i => if 0 ≤ i ∧ i < (len : Int) then .ProvenSafe else .CompileError

/-- The diagnostics of one access: a `CompileError` policy is the
`OutOfBounds` diagnostic. -/
def boundsDiags (t : Target) (e : IExpr) : List Diag :=
  if boundsPolicy t e = .CompileError then [Diag.OutOfBounds] else []

/-- C7: Bounds-check policy trichotomy: slice accesses always get the
dynamic (runtime-guard) policy; for an array of known length, a
constant-foldable index outside `[0, len)` is a compile-time
`OutOfBounds`, a constant index in range is proven safe with no
diagnostic, and a non-constant index is marked needs-runtime-guard. -/
theorem C7_bounds_policy (len : Nat) (e : IExpr) (i : Int) :
    boundsPolicy Target.slice e = Policy.RuntimeGuard
    ∧ (fold_constant e = some i → (i < 0 ∨ (len : Int) ≤ i) →
        boundsPolicy (Target.array len) e = Policy.CompileError
        ∧ Diag.OutOfBounds ∈ boundsDiags (Target.array len) e)
    ∧ (fold_constant e = some i → 0 ≤ i → i < (len : Int) →
        boundsPolicy (Target.array len) e = Policy.ProvenSafe
        ∧ boundsDiags (Target.array len) e = [])
    ∧ (fold_constant e = none →
        boundsPolicy (Target.array len) e = Policy.RuntimeGuard
        ∧ boundsDiags (Target.array len) e = []) := by
  refine ⟨rfl, ?_, ?_, ?_⟩
  · intro hf hout
    have hno : ¬ (0 ≤ i ∧ i < (len : Int)) := by omega
    have hp : boundsPolicy (Target.array len) e = Policy.CompileError := by
      simp [boundsPolicy, hf, hno]
    exact ⟨hp, by simp [boundsDiags, hp]⟩
  · intro hf h0 hlt
    have hp : boundsPolicy (Target.array len) e = Policy.ProvenSafe := by
      simp [boundsPolicy, hf, h0, hlt]
    exact ⟨hp, by simp [boundsDiags, hp]⟩
  · intro hf
    have hp : boundsPolicy (Target.array len) e = Policy.RuntimeGuard := by
      simp [boundsPolicy, hf]
    exact ⟨hp, by simp [boundsDiags, hp]⟩

/-- Witness for C7 at concrete accesses: `arr[10]` with `len 5` is a
compile-time `OutOfBounds`, `arr[3]` is proven safe, a dynamic index
needs a runtime guard, and a slice access gets the dynamic policy. -/
theorem C7_bounds_policy_witness :
    (boundsPolicy (Target.array 5) (IExpr.lit 10) = Policy.CompileError
      ∧ Diag.OutOfBounds ∈ boundsDiags (Target.array 5) (IExpr.lit 10))
    ∧ (boundsPolicy (Target.array 5) (IExpr.lit 3) = Policy.ProvenSafe
      ∧ boundsDiags (Target.array 5) (IExpr.lit 3) = [])
    ∧ (boundsPolicy (Target.array 5) IExpr.dyn = Policy.RuntimeGuard
      ∧ boundsDiags (Target.array 5) IExpr.dyn = [])
    ∧ boundsPolicy Target.slice IExpr.dyn = Policy.RuntimeGuard :=
  ⟨(C7_bounds_policy 5 (IExpr.lit 10) 10).2.1 rfl (by decide),
   (C7_bounds_policy 5 (IExpr.lit 3) 3).2.2.1 rfl (by decide) (by decide),
   (C7_bounds_policy 5 IExpr.dyn 0).2.2.2 rfl,
   (C7_bounds_policy 5 IExpr.dyn 0).1⟩

/-! ## Escape-hatch suppression (spec §7, safety.md "The Unsafe
Boundary" and "Summary of Safety Guarantees") -/

/-- Modelled from the spec: which diagnostics the escape hatch
suppresses, per the documentation's summary table: region escape
(`RegionEscape`, `StackEscape`), aliasing (`AliasConflict`),
nullability (`NullDerefRisk`), and both static and dynamic bounds
checks (`OutOfBounds`); definite initialization (`UseOfUninit`) and
region declaration checking (`DuplicateRegion`) are never suppressed. -/
def suppressedInHatch : Diag → Bool
  | .RegionEscape => true
  | .StackEscape => true
  | .AliasConflict => true
  | .NullDerefRisk => true
  | .OutOfBounds => true
  | _ => false

/-- Modelled from the spec: the diagnostic filter the driver applies to
diagnostics raised inside an escape-hatch construct. -/
def hatchFilter (inHatch : Bool) (ds : List Diag) : List Diag :=
  if inHatch then ds.filter (fun d => !(suppressedInHatch d)) else ds

/-- Modelled from the spec: whether a runtime bounds guard is emitted
for an access — only for a `RuntimeGuard` policy outside the hatch
(safety.md: the `boundsCheckOmit` flag is set inside `unsafe`). -/
def emitGuard (inHatch : Bool) (pol : Policy) : Bool :=
  pol == Policy.RuntimeGuard && !inHatch

/-- The bounds diagnostics of an access after hatch filtering. -/
def hatchBoundsDiags (inHatch : Bool) (t : Target) (e : IExpr) : List Diag :=
  hatchFilter inHatch (boundsDiags t e)

/-- C2 counterexample: the claim keeps a constant-provable
`OutOfBounds` a hard compile error inside the escape hatch, but per the
documentation's summary table the static bounds check is suppressed by
the hatch: `arr[10]` with length 5, a constant-foldable out-of-range
index, yields no diagnostic inside the hatch. -/
theorem C2_counterexample :
    boundsPolicy (Target.array 5) (IExpr.lit 10) = Policy.CompileError
    ∧ hatchBoundsDiags true (Target.array 5) (IExpr.lit 10) = []
    ∧ hatchBoundsDiags false (Target.array 5) (IExpr.lit 10) = [Diag.OutOfBounds] := by
  decide

/-- C2 (amended): inside the escape hatch the analyzer suppresses
exactly `RegionEscape`, `StackEscape`, `AliasConflict`,
`NullDerefRisk`, and `OutOfBounds` (the static bounds check is
suppressed along with the dynamic one), plus runtime-guard insertion;
`UseOfUninitialized` and `DuplicateRegion` are reported regardless of
any escape hatch, and outside the hatch nothing is filtered. -/
theorem C2_hatch_suppression (b : Bool) (d : Diag) (ds : List Diag) (pol : Policy) :
    (suppressedInHatch d = true ↔
      (d = Diag.RegionEscape ∨ d = Diag.StackEscape ∨ d = Diag.AliasConflict ∨
       d = Diag.NullDerefRisk ∨ d = Diag.OutOfBounds))
    ∧ (d ∈ hatchFilter true ds ↔ (d ∈ ds ∧ suppressedInHatch d = false))
    ∧ hatchFilter false ds = ds
    ∧ (Diag.UseOfUninit ∈ ds → Diag.UseOfUninit ∈ hatchFilter b ds)
    ∧ (Diag.DuplicateRegion ∈ ds → Diag.DuplicateRegion ∈ hatchFilter b ds)
    ∧ emitGuard true pol = false := by
  refine ⟨?_, ?_, ?_, ?_, ?_, ?_⟩
  · cases d <;> simp [suppressedInHatch]
  · simp [hatchFilter, List.mem_filter]
  · simp [hatchFilter]
  · intro h
    cases b <;> simp [hatchFilter, List.mem_filter, suppressedInHatch, h]
  · intro h
    cases b <;> simp [hatchFilter, List.mem_filter, suppressedInHatch, h]
  · simp [emitGuard]

/-- Witness for C2 (amended) at a concrete diagnostic list: the
never-suppressible diagnostics survive the hatch filter. -/
theorem C2_hatch_suppression_witness :
    Diag.UseOfUninit ∈ hatchFilter true [Diag.UseOfUninit, Diag.DuplicateRegion]
    ∧ Diag.DuplicateRegion ∈ hatchFilter true [Diag.UseOfUninit, Diag.DuplicateRegion] :=
  ⟨(C2_hatch_suppression true Diag.UseOfUninit
      [Diag.UseOfUninit, Diag.DuplicateRegion] Policy.ProvenSafe).2.2.2.1 (by decide),
   (C2_hatch_suppression true Diag.DuplicateRegion
      [Diag.UseOfUninit, Diag.DuplicateRegion] Policy.ProvenSafe).2.2.2.2.1 (by decide)⟩

/-! ## Region-Invalidation Tracker (spec §4.5, memory.md "Arena
References Die on Reset") -/

/-- Modelled from the spec: the statements relevant to the
region-invalidation pass.  `newRef r a` creates reference `r` from
arena `a`, `useRef` reads/writes through it, `reset a` is the arena's
bulk-free call, and `cond thn els` is a conditional whose branches are
analyzed independently and merged. -/
inductive AStmt where
  | newRef (r a : Nat)
  | useRef (r : Nat)
  | reset (a : Nat)
  | other
  | cond (thn els : List AStmt)

/-- Modelled from the spec: the tracker's state — one generation
counter per arena, per-reference (arena, creation-time generation)
entries, and the accumulated diagnostics. -/
structure ASt where
  gens : Nat → Nat
  refs : List (Nat × Nat × Nat)
  diags : List Diag

mutual
/-- Modelled from the spec: one step of the tracker (§4.5): a reset
increments the arena's generation counter; a use whose recorded
creation-time generation differs from the current one fails with
`StaleArenaReference`; at a conditional's merge point the generation is
the maximum across the incoming paths, which rejects a reference as
possibly stale when only some paths reset. -/
def runA (s : ASt) : AStmt → ASt
  | .newRef r a => ⟨s.gens, (r, a, s.gens a) :: s.refs, s.diags⟩
  | .useRef r =>
    match s.refs.lookup r with
    | some (a, g) =>
      if g < s.gens a then ⟨s.gens, s.refs, s.diags ++ [Diag.StaleArenaReference]⟩
      else s
    | none => s
  | .reset a => ⟨fun x => if x = a then s.gens a + 1 else s.gens x, s.refs, s.diags⟩
  | .other => s
  | .cond thn els =>
    let s1 := runAList ⟨s.gens, s.refs, s.diags⟩ thn
    let s2 := runAList ⟨s.gens, s.refs, s1.diags⟩ els
    ⟨fun x => max (s1.gens x) (s2.gens x), s.refs, s2.diags⟩

/-- The tracker's walk over a statement list. -/
def runAList (s : ASt) : List AStmt → ASt
  | [] => s
  | st :: rest => runAList (runA s st) rest
end

/-- Modelled from the spec: the region-invalidation verdict of a
program, started with all generation counters at zero. -/
def aCheck (prog : List AStmt) : List Diag :=
  (runAList ⟨fun _ => 0, [], []⟩ prog).diags

theorem runAList_append (s : ASt) (l1 l2 : List AStmt) :
    runAList s (l1 ++ l2) = runAList (runAList s l1) l2 := by
  induction l1 generalizing s with
  | nil => rfl
  | cons st rest ih => simp [runAList, ih]

theorem runAList_replicate_other (s : ASt) (n : Nat) :
    runAList s (List.replicate n AStmt.other) = s := by
  induction n with
  | zero => rfl
  | succ k ih => simp [List.replicate_succ, runAList, runA, ih]

/-- C6: Arena staleness: a reference created from an arena, used, then
the arena reset, then the reference used again is rejected with
`StaleArenaReference` regardless of how many statements separate
creation, reset, and reuse; and when only one branch of a conditional
resets the arena, the use after the merge point is still rejected. -/
theorem C6_arena_staleness (n m : Nat) :
    Diag.StaleArenaReference ∈ aCheck
      ([AStmt.newRef 0 0, AStmt.useRef 0] ++ List.replicate n AStmt.other
        ++ [AStmt.reset 0] ++ List.replicate m AStmt.other ++ [AStmt.useRef 0])
    ∧ Diag.StaleArenaReference ∈ aCheck
      [AStmt.newRef 0 0, AStmt.cond [AStmt.reset 0] [AStmt.other], AStmt.useRef 0] := by
  constructor
  · simp only [aCheck, runAList_append, runAList_replicate_other]
    decide
  · decide

/-! ## FFI coercion boundary (memory.md "FFI and Regions", the FFI
chapter's "FFI Rules Summary", formal safety model "FFI Boundary
Rules") -/

/-- An argument crossing the C FFI boundary: a plain (non-reference)
value, a region-qualified reference, or a raw pointer received from C
being handled. -/
inductive CallArg where
  | value
  | regionRef (reg : Region)
  | rawFromC
deriving DecidableEq

/-- Modelled from the spec: the FFI boundary rule — `&static T`
coerces to `T*` with no escape hatch; stack, heap, and arena
references, and raw pointers received from C, are allowed only inside
the hatch; plain values always pass. -/
def ffiArgAllowed (inHatch : Bool) (a : CallArg) : Bool :=
  match a with
  | .value => true
  | .regionRef reg => reg == Region.Static || inHatch
  | .rawFromC => inHatch

/-- C9: FFI coercion boundary: outside the escape hatch a region
reference passes to C exactly when its region is `Static` (the only
implicit region-to-pointer conversion), so stack, heap, and arena
references are errors; inside the hatch every region reference passes;
a raw pointer received from C is handled only inside the hatch. -/
theorem C9_ffi_boundary :
    (∀ reg, ffiArgAllowed false (CallArg.regionRef reg) = true ↔ reg = Region.Static)
    ∧ (∀ reg, ffiArgAllowed true (CallArg.regionRef reg) = true)
    ∧ (∀ b, ffiArgAllowed b CallArg.rawFromC = b)
    ∧ (∀ b, ffiArgAllowed b CallArg.value = true) := by
  refine ⟨?_, ?_, ?_, ?_⟩
  · intro reg; cases reg <;> simp [ffiArgAllowed]
  · intro reg; simp [ffiArgAllowed]
  · intro b; rfl
  · intro b; rfl

/-! ## Unsafe escape permanence (safety.md "Unsafe Escape" versus "The
Unsafe Boundary") -/

/-- An item inside or outside a hatch block: a region-rule-violating
assignment through reference `r`, or a region-rule-violating use of
reference `r`. -/
inductive XItem where
  | assignBad (r : Nat)
  | useBad (r : Nat)
deriving DecidableEq

/-- A statement of the hatch model: a top-level item, a plain
`unsafe {}` block, or an `unsafe escape {}` block. -/
inductive XStmt where
  | top (i : XItem)
  | plainBlock (body : List XItem)
  | escBlock (body : List XItem)
deriving DecidableEq

/-- The three analysis modes an item can be processed in. -/
inductive XMode where
  | outside
  | hatch
  | escHatch
deriving DecidableEq

/-- Modelled from the spec: processing one item (safety.md): outside
any hatch, a violating assignment or use through a still-tracked
reference reports `RegionEscape` for it; inside a plain hatch the
diagnostic is suppressed but tracking is unchanged; inside an
`unsafe escape` block an assignment permanently strips region tracking
from the assigned reference (adds it to the untracked set). -/
def runXItem (m : XMode) (u : List Nat) (it : XItem) : List Nat × List (Diag × Nat) :=
  match m, it with
  | .outside, .assignBad r => (u, if r ∈ u then [] else [(Diag.RegionEscape, r)])
  | .outside, .useBad r => (u, if r ∈ u then [] else [(Diag.RegionEscape, r)])
  | .hatch, _ => (u, [])
  | .escHatch, .assignBad r => (r :: u, [])
  | .escHatch, .useBad r => (u, [])

/-- Processing the items of one block in a fixed mode. -/
def runXItems (m : XMode) (u : List Nat) : List XItem → List Nat × List (Diag × Nat)
  | [] => (u, [])
  | it :: rest =>
    let q := runXItem m u it
    let q2 := runXItems m q.1 rest
    (q2.1, q.2 ++ q2.2)

/-- The walk over a program: block boundaries switch the mode, so a
plain hatch's suppression ends at its closing brace while the
untracked set persists forever. -/
def runX (u : List Nat) : List XStmt → List Nat × List (Diag × Nat)
  | [] => (u, [])
  | .top it :: rest =>
    let q := runXItem .outside u it
    let q2 := runX q.1 rest
    (q2.1, q.2 ++ q2.2)
  | .plainBlock body :: rest =>
    let q := runXItems .hatch u body
    let q2 := runX q.1 rest
    (q2.1, q.2 ++ q2.2)
  | .escBlock body :: rest =>
    let q := runXItems .escHatch u body
    let q2 := runX q.1 rest
    (q2.1, q.2 ++ q2.2)

/-- The hatch model's verdict: (diagnostic, reference) pairs. -/
def xCheck (prog : List XStmt) : List (Diag × Nat) :=
  (runX [] prog).2

theorem runXItem_preserve (m : XMode) (u : List Nat) (it : XItem) (r : Nat)
    (hr : r ∈ u) :
    r ∈ (runXItem m u it).1 ∧ ∀ e ∈ (runXItem m u it).2, e.2 ≠ r := by
  cases m <;> cases it <;> simp only [runXItem]
  case outside.assignBad r2 =>
    refine ⟨hr, ?_⟩
    by_cases h : r2 ∈ u
    · simp [h]
    · simp only [if_neg h, List.mem_singleton]
      rintro e rfl
      intro hcon
      exact h ((show r2 = r from hcon).symm ▸ hr)
  case outside.useBad r2 =>
    refine ⟨hr, ?_⟩
    by_cases h : r2 ∈ u
    · simp [h]
    · simp only [if_neg h, List.mem_singleton]
      rintro e rfl
      intro hcon
      exact h ((show r2 = r from hcon).symm ▸ hr)
  case hatch.assignBad r2 => exact ⟨hr, by simp⟩
  case hatch.useBad r2 => exact ⟨hr, by simp⟩
  case escHatch.assignBad r2 => exact ⟨List.mem_cons_of_mem r2 hr, by simp⟩
  case escHatch.useBad r2 => exact ⟨hr, by simp⟩

theorem runXItems_preserve (m : XMode) (l : List XItem) (u : List Nat) (r : Nat)
    (hr : r ∈ u) :
    r ∈ (runXItems m u l).1 ∧ ∀ e ∈ (runXItems m u l).2, e.2 ≠ r := by
  induction l generalizing u with
  | nil => exact ⟨hr, by simp [runXItems]⟩
  | cons it rest ih =>
    obtain ⟨h1, h2⟩ := runXItem_preserve m u it r hr
    obtain ⟨h3, h4⟩ := ih _ h1
    refine ⟨h3, ?_⟩
    intro e he
    simp only [runXItems, List.mem_append] at he
    rcases he with he | he
    · exact h2 e he
    · exact h4 e he

theorem runX_preserve (prog : List XStmt) (u : List Nat) (r : Nat) (hr : r ∈ u) :
    r ∈ (runX u prog).1 ∧ ∀ e ∈ (runX u prog).2, e.2 ≠ r := by
  induction prog generalizing u with
  | nil => exact ⟨hr, by simp [runX]⟩
  | cons st rest ih =>
    cases st with
    | top it =>
      obtain ⟨h1, h2⟩ := runXItem_preserve XMode.outside u it r hr
      obtain ⟨h3, h4⟩ := ih _ h1
      refine ⟨h3, ?_⟩
      intro e he
      simp only [runX, List.mem_append] at he
      rcases he with he | he
      · exact h2 e he
      · exact h4 e he
    | plainBlock body =>
      obtain ⟨h1, h2⟩ := runXItems_preserve XMode.hatch body u r hr
      obtain ⟨h3, h4⟩ := ih _ h1
      refine ⟨h3, ?_⟩
      intro e he
      simp only [runX, List.mem_append] at he
      rcases he with he | he
      · exact h2 e he
      · exact h4 e he
    | escBlock body =>
      obtain ⟨h1, h2⟩ := runXItems_preserve XMode.escHatch body u r hr
      obtain ⟨h3, h4⟩ := ih _ h1
      refine ⟨h3, ?_⟩
      intro e he
      simp only [runX, List.mem_append] at he
      rcases he with he | he
      · exact h2 e he
      · exact h4 e he

/-- C10: Permanence of unsafe escape: after a reference is assigned
inside an `unsafe escape {}` block, its region tracking is permanently
removed, so no region/lifetime diagnostic for that reference is ever
produced at any later program point, whatever follows; by contrast a
plain `unsafe {}` block only suppresses inside itself — a violating
use right after the block is diagnosed. -/
theorem C10_escape_permanence :
    (∀ (post : List XStmt) (r : Nat) e,
        e ∈ xCheck (XStmt.escBlock [XItem.assignBad r] :: post) → e.2 ≠ r)
    ∧ xCheck [XStmt.plainBlock [XItem.assignBad 0], XStmt.top (XItem.useBad 0)]
        = [(Diag.RegionEscape, 0)] := by
  constructor
  · intro post r e he
    simp only [xCheck, runX, runXItems, runXItem, List.nil_append] at he
    exact (runX_preserve post [r] r (List.mem_singleton.mpr rfl)).2 e he
  · decide

/-- Witness for C10: with one later violating use of a different
reference, the diagnostic produced is not about the escaped reference. -/
theorem C10_escape_permanence_witness :
    ((Diag.RegionEscape, 1) : Diag × Nat).2 ≠ 0 :=
  C10_escape_permanence.1 [XStmt.top (XItem.useBad 1)] 0 (Diag.RegionEscape, 1)
    (by decide)

/-! ## Analyzer determinism (spec §5, §8; design.md "Determinism") -/

/-- A translation unit as seen by the passes modelled above. -/
structure TU where
  bprog : List BStmt
  eprog : List EStmt
  iprog : List IStmt
  aprog : List AStmt

/-- The final escape-walk state of a statement list. -/
def efinal : EState → List EStmt → EState
  | s, [] => s
  | s, st :: rest => efinal (estep s st).1 rest

/-- The final definite-initialization table of a statement list. -/
def ifinal : List (Nat × Bool) → List IStmt → List (Nat × Bool)
  | s, [] => s
  | s, st :: rest => ifinal (initStepDoc s st).1 rest

/-- Modelled from the spec: the scope/region/borrow tables a run of the
analyzer leaves behind (§3's lifecycle: the whole table is discarded
when the unit's analysis finishes). -/
structure Tables where
  borrows : List BorrowRec
  escape : EState
  initTbl : List (Nat × Bool)
  arena : ASt

/-- The tables at the start of a translation unit's analysis. -/
def freshTables : Tables :=
  ⟨[], ⟨1, [], []⟩, [], ⟨fun _ => 0, [], []⟩⟩

/-- Modelled from the spec: the per-translation-unit driver (§5): it
builds fresh private tables for the unit — any tables left by a
previous run are discarded, never read — runs the passes, and
accumulates their diagnostics. -/
def analyzeTU (t : Tables) (u : TU) : Tables × List Diag :=
  (⟨borrowRecords u.bprog,
    efinal ⟨1, [], []⟩ u.eprog,
    ifinal [] u.iprog,
    runAList ⟨fun _ => 0, [], []⟩ u.aprog⟩,
   borrowCheck u.bprog ++ escCheck u.eprog
     ++ (initCheckDoc u.iprog).map Prod.fst ++ aCheck u.aprog)

/-- A single run from fresh tables. -/
def fullAnalyze (u : TU) : List Diag :=
  (analyzeTU freshTables u).2

/-- Running the analyzer twice in sequence on the same unit, feeding
the first run's final tables into the second run's driver. -/
def analyzeTwice (u : TU) : List Diag × List Diag :=
  let q1 := analyzeTU freshTables u
  let q2 := analyzeTU q1.1 u
  (q1.2, q2.2)

/-- C8: Analyzer idempotence/determinism: the diagnostic list of a run
does not depend on the tables left behind by any earlier run (no hidden
mutable state leaks between runs), so running the analyzer twice on the
same unit produces the same diagnostic set, equal to a single fresh
run's. -/
theorem C8_idempotence (t1 t2 : Tables) (u : TU) :
    (analyzeTU t1 u).2 = (analyzeTU t2 u).2
    ∧ (analyzeTwice u).1 = (analyzeTwice u).2
    ∧ (analyzeTwice u).2 = fullAnalyze u :=
  ⟨rfl, rfl, rfl⟩

/-- Witness for C4 at the concrete block: the use of reference 0 at
point 1 is within its record's live range. -/
theorem C4_non_lexical_liveness_witness :
    (1 : Nat) ≤ (⟨0, 0, BKind.Mutable, 0, 1⟩ : BorrowRec).live_to :=
  C4_non_lexical_liveness.1 c4prog ⟨0, 0, BKind.Mutable, 0, 1⟩ (by decide) 1
    (by decide) (by decide)

/-- Witness for C5 (amended) at concrete places: reading scalar place 3
before assignment reports it uninitialized. -/
theorem C5_struct_initialization_witness :
    initCheckDoc [IStmt.declScalar 3, IStmt.readW 3] = [(Diag.UseOfUninit, 3)] :=
  (C5_struct_initialization 3 2 0 1).1

/-- Witness for C6 at concrete separations (2 and 3 intervening
statements). -/
theorem C6_arena_staleness_witness :
    Diag.StaleArenaReference ∈ aCheck
      ([AStmt.newRef 0 0, AStmt.useRef 0] ++ List.replicate 2 AStmt.other
        ++ [AStmt.reset 0] ++ List.replicate 3 AStmt.other ++ [AStmt.useRef 0]) :=
  (C6_arena_staleness 2 3).1

/-- Witness for C8 at a concrete (empty) translation unit: both runs
report the same diagnostics. -/
theorem C8_idempotence_witness :
    (analyzeTwice ⟨[], [], [], []⟩).1 = (analyzeTwice ⟨[], [], [], []⟩).2 :=
  (C8_idempotence freshTables freshTables ⟨[], [], [], []⟩).2.1

/-- Witness for C9 at a concrete region: a static reference passes to C
outside the hatch. -/
theorem C9_ffi_boundary_witness :
    ffiArgAllowed false (CallArg.regionRef Region.Static) = true :=
  (C9_ffi_boundary.1 Region.Static).mpr rfl

end SafeC
